import Mathlib

/-!
# 3D Rotating Cube: transform and compositing pipeline of `graphics.c`

A shallow embedding of the matrix algebra, the transform accumulator, the point
generators and the depth compositor of `src/graphics.c`.

Conventions of the embedding.

* C `float` values are elements of an ordered field `K` with exact arithmetic
  (`ℚ` when the definitions are evaluated, `ℝ` for the trigonometric bound).
  Rounding, infinities and NaN are not represented.
* `sinf` and `cosf` come from the C library; they are parameters.
* A C array `T a[n][n]` is a function `Fin n → Fin n → T`; an access
  `a[x][y]` with `int` indices goes through `cellIndex`, which computes the
  row-major offset `x * n + y` the way the C compiler does.
* The conversion `(int) v` is the mathematical truncation toward zero; values
  whose truncation does not fit an `int` are not represented.
* `int` is 32 bits wide. The increment `counter++` at `INT_MAX` overflows, which
  C leaves undefined; the embedding takes the two's-complement wrap that the
  usual compilers produce.
* The OpenCL kernel lives in `transform.cl`, which is not part of the sources;
  it is a parameter of `movePoints`, and `transformKernel` models it from the
  specification.
* An access outside the display arrays leaves their content undefined and
  alters no other variable.
-/

set_option linter.unusedSectionVars false

namespace Graphics

/-- Maximum screen size, both height and width (`#define SCREENSIZE 100`). -/
abbrev SCREENSIZE : Nat := 100

/-- A square C array `T a[n][n]`. -/
abbrev Grid (n : Nat) (α : Type) := Fin n → Fin n → α

/-- The assignment `a[i][j] = v` at in-range indices. -/
def setCell {n : Nat} {α : Type} (a : Grid n α) (i j : Fin n) (v : α) : Grid n α :=
  fun r c => if r = i ∧ c = j then v else a r c

/-- A 4x4 matrix of floats, `float m[4][4]`. -/
abbrev Mat (K : Type) := Grid 4 K

/-- A point, `float p[4]`. -/
abbrev Vec (K : Type) := Fin 4 → K

/-- The index values of a loop `for (i=0; i<4; i++)`. -/
def idx4 : List (Fin 4) := [0, 1, 2, 3]

section Algebra

variable {K : Type} [LinearOrderedField K] [FloorRing K]

/-- Embedding of `matrixMult(a, b, c)`: the three nested loops, with `a` the
array that receives the product. The arrays `b` and `c` are distinct from `a`
and are only read. -/
def matrixMult (a b c : Mat K) : Mat K :=
  idx4.foldl (fun a row =>
    idx4.foldl (fun a col =>
      idx4.foldl (fun a element =>
          setCell a row col (a row col + b row element * c element col))
        (setCell a row col 0))
      a)
    a

/-- Embedding of `initTransform()`: the double loop writing 1.0 on the diagonal
and 0.0 elsewhere. -/
def initTransform (transformArray : Mat K) : Mat K :=
  idx4.foldl (fun t i =>
    idx4.foldl (fun t j =>
      if i = j then setCell t i j 1 else setCell t i j 0) t)
    transformArray

/-- The initialiser `{1,0,0,0, 0,1,0,0, 0,0,1,0, 0,0,0,1}` of the local arrays
`rotx`, `roty`, `rotz`. -/
def rotInit : Mat K := fun r c => if r = c then 1 else 0

/-- The local `float oneDegree = 0.017453`. -/
def oneDegree : K := 17453 / 1000000

/-- The copy loop `transformArray[i][j] = result[i][j]` closing each rotation. -/
def copyResult (transformArray result : Mat K) : Mat K :=
  idx4.foldl (fun t i =>
    idx4.foldl (fun t j => setCell t i j (result i j)) t)
    transformArray

/-- The matrix `rotx` that `xRot(rot)` builds before multiplying. -/
def rotxMatrix (sinf cosf : K → K) (rot : Int) : Mat K :=
  let angle : K := (rot : K) * oneDegree
  let sinAngle := sinf angle
  let cosAngle := cosf angle
  let rotx := setCell rotInit 1 1 cosAngle
  let rotx := setCell rotx 2 2 cosAngle
  let rotx := setCell rotx 1 2 (-sinAngle)
  setCell rotx 2 1 sinAngle

/-- The matrix `roty` that `yRot(rot)` builds before multiplying. -/
def rotyMatrix (sinf cosf : K → K) (rot : Int) : Mat K :=
  let angle : K := (rot : K) * oneDegree
  let sinAngle := sinf angle
  let cosAngle := cosf angle
  let roty := setCell rotInit 0 0 cosAngle
  let roty := setCell roty 2 2 cosAngle
  let roty := setCell roty 0 2 sinAngle
  setCell roty 2 0 (-sinAngle)

/-- The matrix `rotz` that `zRot(rot)` builds before multiplying. -/
def rotzMatrix (sinf cosf : K → K) (rot : Int) : Mat K :=
  let angle : K := (rot : K) * oneDegree
  let sinAngle := sinf angle
  let cosAngle := cosf angle
  let rotz := setCell rotInit 0 0 cosAngle
  let rotz := setCell rotz 1 1 cosAngle
  let rotz := setCell rotz 0 1 (-sinAngle)
  setCell rotz 1 0 sinAngle

/-- Embedding of `xRot(rot)`. The local `result` is uninitialised in C; it is
started from the zero matrix here (`matrixMult` overwrites every entry). -/
def xRot (sinf cosf : K → K) (rot : Int) (transformArray : Mat K) : Mat K :=
  let result := matrixMult (fun _ _ => 0) transformArray (rotxMatrix sinf cosf rot)
  copyResult transformArray result

/-- Embedding of `yRot(rot)`. -/
def yRot (sinf cosf : K → K) (rot : Int) (transformArray : Mat K) : Mat K :=
  let result := matrixMult (fun _ _ => 0) transformArray (rotyMatrix sinf cosf rot)
  copyResult transformArray result

/-- Embedding of `zRot(rot)`. -/
def zRot (sinf cosf : K → K) (rot : Int) (transformArray : Mat K) : Mat K :=
  let result := matrixMult (fun _ _ => 0) transformArray (rotzMatrix sinf cosf rot)
  copyResult transformArray result

/-- The 4x4 identity matrix, as the specification names it. -/
def identity4 : Mat K := fun r c => if r = c then 1 else 0

/-- The standard 4x4 matrix product `b × c` of the specification,
`(b × c)[r][k] = Σ b[r][e]·c[e][k]`. -/
def matProd (b c : Mat K) : Mat K :=
  fun r k => b r 0 * c 0 k + b r 1 * c 1 k + b r 2 * c 2 k + b r 3 * c 3 k

end Algebra

section Points

variable {K : Type} [LinearOrderedField K] [FloorRing K]

/-- The conversion `(int) v` of a float, and the function `trunc`: rounding
toward zero. -/
def truncInt (v : K) : Int := if 0 ≤ v then ⌊v⌋ else ⌈v⌉

/-- Embedding of `cubePointArray()`: the eight points it stores in
`pointArray[0..7]`. -/
def cubePointArray : List (Vec K) :=
  [ ![0.5, 0.0, 0.5, 1.0],
    ![0.5, 0.0, -0.5, 1.0],
    ![-0.5, 0.0, -0.5, 1.0],
    ![-0.5, 0.0, 0.5, 1.0],
    ![0.5, 1.0, 0.5, 1.0],
    ![0.5, 1.0, -0.5, 1.0],
    ![-0.5, 1.0, -0.5, 1.0],
    ![-0.5, 1.0, 0.5, 1.0] ]

/-- One coordinate of `randomPointArray()`, from the value `r` that `random()`
returned: `val = (float) r / 10000.0; 2.5 * ((val - trunc(val)) - 0.5)`. -/
def randomCoord (r : Nat) : K :=
  let val : K := (r : K) / 10000.0
  2.5 * ((val - (truncInt val : K)) - 0.5)

/-- Embedding of `randomPointArray()`. The values that the successive calls of
`random()` return are `random 0, random 1, ...`; point `i` consumes four of
them, one for each of its components `[0]`, `[1]`, `[2]`, `[3]`. -/
def randomPointArray (pointCount : Nat) (random : Nat → Nat) : List (Vec K) :=
  (List.range pointCount).map (fun i =>
    ![randomCoord (random (4 * i)), randomCoord (random (4 * i + 1)),
      randomCoord (random (4 * i + 2)), randomCoord (random (4 * i + 3))])

end Points

section Compositor

variable {K : Type} [LinearOrderedField K] [FloorRing K]

/-- The display buffers `char frameBuffer[SCREENSIZE][SCREENSIZE]` and
`float depthBuffer[SCREENSIZE][SCREENSIZE]`. -/
structure Buffers (K : Type) where
  frameBuffer : Grid SCREENSIZE Char
  depthBuffer : Grid SCREENSIZE K

/-- The element that `a[x][y]` designates in an array `T a[SCREENSIZE][SCREENSIZE]`
for `int` indices `x`, `y`. The access is compiled to the row-major offset
`x * SCREENSIZE + y` with no bounds check. An offset inside the array belongs
to the cell at row `offset / SCREENSIZE`, column `offset % SCREENSIZE`; an
offset outside the array is an access outside the object, which has no defined
result (`none`). -/
def cellIndex (x y : Int) : Option (Fin SCREENSIZE × Fin SCREENSIZE) :=
  let offset := x * 100 + y
  if h : 0 ≤ offset ∧ offset < 10000 then
    some (⟨(offset / 100).toNat, by simp only [SCREENSIZE]; omega⟩,
          ⟨(offset % 100).toNat, by simp only [SCREENSIZE]; omega⟩)
  else none

/-- Embedding of `clearBuffers()`: the double loop that blanks every cell of the
frame buffer and stores -1000.0 in every cell of the depth buffer. -/
def clearBuffers (b : Buffers K) : Buffers K :=
  (List.finRange SCREENSIZE).foldl (fun b i =>
    (List.finRange SCREENSIZE).foldl (fun b j =>
      { frameBuffer := setCell b.frameBuffer i j ' ',
        depthBuffer := setCell b.depthBuffer i j (-1000.0) }) b) b

/-- The body of the drawing loop of `movePoints()` for one point `p` of
`drawArray` (lines 520-531). -/
def drawPoint (b : Buffers K) (p : Vec K) : Option (Buffers K) :=
  let x := truncInt (p 0)
  let y := truncInt (p 1)
  match cellIndex x y with
  | none => none
  | some (i, j) =>
    if b.depthBuffer i j < p 2 then
      if p 2 > 60.0 then
        some { b with frameBuffer := setCell b.frameBuffer i j 'X' }
      else if p 2 < 40.0 then
        some { b with frameBuffer := setCell b.frameBuffer i j '.' }
      else
        some { frameBuffer := setCell b.frameBuffer i j 'o',
               depthBuffer := setCell b.depthBuffer i j (p 2) }
    else
      some b

/-- The drawing loop of `movePoints()` over the points of `drawArray`. -/
def drawLoop (b : Buffers K) : List (Vec K) → Option (Buffers K)
  | [] => some b
  | p :: rest =>
    match drawPoint b p with
    | none => none
    | some b1 => drawLoop b1 rest

/-- The grid cell a point maps to when its truncated coordinates are inside the
grid `0..SCREENSIZE-1` in both directions, `none` otherwise. This is the
vocabulary of the statements below; the code itself never tests the range. -/
def targetCell (p : Vec K) : Option (Fin SCREENSIZE × Fin SCREENSIZE) :=
  let x := truncInt (p 0)
  let y := truncInt (p 1)
  if h : (0 ≤ x ∧ x < 100) ∧ (0 ≤ y ∧ y < 100) then
    some (⟨x.toNat, by simp only [SCREENSIZE]; omega⟩,
          ⟨y.toNat, by simp only [SCREENSIZE]; omega⟩)
  else none

/-- The depth compositor: `clearBuffers()` followed by the drawing loop. -/
def composite (b : Buffers K) (drawArray : List (Vec K)) : Option (Buffers K) :=
  drawLoop (clearBuffers b) drawArray

end Compositor

section Frame

variable {K : Type} [LinearOrderedField K] [FloorRing K]

end Frame

section AlgebraFacts

variable {K : Type} [LinearOrderedField K] [FloorRing K]

theorem setCell_same {n : Nat} {α : Type} (a : Grid n α) (i j : Fin n) (v : α) :
    setCell a i j v i j = v := by
  simp [setCell]

theorem setCell_other {n : Nat} {α : Type} (a : Grid n α) (i j r c : Fin n) (v : α)
    (h : ¬ (r = i ∧ c = j)) : setCell a i j v r c = a r c := by
  simp [setCell, h]

theorem setCell_overwrite {n : Nat} {α : Type} (a : Grid n α) (i j : Fin n) (v w : α) :
    setCell (setCell a i j v) i j w = setCell a i j w := by
  funext r c
  by_cases h : r = i ∧ c = j <;> simp [setCell, h]

/-- A loop over the columns `cols` that stores `g row col` in `a[row][col]`. -/
theorem fill_row {n : Nat} {α : Type} (g : Fin n → Fin n → α) (row : Fin n)
    (cols : List (Fin n)) (a : Grid n α) (r c : Fin n) :
    cols.foldl (fun a col => setCell a row col (g row col)) a r c
      = if r = row ∧ c ∈ cols then g r c else a r c := by
  induction cols generalizing a with
  | nil => simp
  | cons col cols ih =>
    rw [List.foldl_cons, ih]
    by_cases hr : r = row
    · subst hr
      by_cases hc : c ∈ cols
      · simp [hc]
      · by_cases hcc : c = col
        · subst hcc
          simp [hc, setCell]
        · simp [hc, hcc, setCell]
    · simp [hr, setCell]

/-- The double loop over `rows` and `cols` that stores `g row col` in `a[row][col]`. -/
theorem fill_grid {n : Nat} {α : Type} (g : Fin n → Fin n → α)
    (rows cols : List (Fin n)) (a : Grid n α) (r c : Fin n) :
    rows.foldl (fun a row => cols.foldl (fun a col => setCell a row col (g row col)) a) a r c
      = if r ∈ rows ∧ c ∈ cols then g r c else a r c := by
  induction rows generalizing a with
  | nil => simp
  | cons row rows ih =>
    rw [List.foldl_cons, ih, fill_row]
    by_cases hc : c ∈ cols
    · by_cases hr : r ∈ rows
      · simp [hr, hc]
      · by_cases hrr : r = row
        · subst hrr
          simp [hr, hc]
        · simp [hr, hrr, hc]
    · simp [hc]

theorem mem_idx4 (i : Fin 4) : i ∈ idx4 := by
  fin_cases i <;> simp [idx4]

/-- The innermost loop of `matrixMult` leaves the accumulated sum in `a[row][col]`. -/
theorem matrixMult_inner (a b c : Mat K) (row col : Fin 4) :
    idx4.foldl (fun a element =>
        setCell a row col (a row col + b row element * c element col))
      (setCell a row col 0)
    = setCell a row col
        (b row 0 * c 0 col + b row 1 * c 1 col + b row 2 * c 2 col + b row 3 * c 3 col) := by
  simp [idx4, setCell_same, setCell_overwrite]

theorem matrixMult_entry (a b c : Mat K) (r k : Fin 4) :
    matrixMult a b c r k
      = b r 0 * c 0 k + b r 1 * c 1 k + b r 2 * c 2 k + b r 3 * c 3 k := by
  unfold matrixMult
  simp only [matrixMult_inner]
  rw [fill_grid (fun row col =>
    b row 0 * c 0 col + b row 1 * c 1 col + b row 2 * c 2 col + b row 3 * c 3 col)]
  simp [mem_idx4]

theorem matrixMult_eq_matProd (a b c : Mat K) : matrixMult a b c = matProd b c := by
  funext r k
  exact matrixMult_entry a b c r k

theorem initTransform_eq (t : Mat K) : initTransform t = identity4 := by
  funext r c
  have hbody : (fun (t : Mat K) (i : Fin 4) =>
      idx4.foldl (fun t j => if i = j then setCell t i j 1 else setCell t i j 0) t)
      = (fun (t : Mat K) (i : Fin 4) =>
      idx4.foldl (fun t j => setCell t i j ((identity4 : Mat K) i j)) t) := by
    funext t i
    congr 1
    funext t j
    by_cases h : i = j <;> simp [identity4, h]
  unfold initTransform
  rw [hbody, fill_grid (identity4 : Mat K)]
  simp [mem_idx4]

theorem copyResult_eq (t result : Mat K) : copyResult t result = result := by
  funext r c
  unfold copyResult
  rw [fill_grid result]
  simp [mem_idx4]

theorem xRot_eq (sinf cosf : K → K) (rot : Int) (t : Mat K) :
    xRot sinf cosf rot t = matProd t (rotxMatrix sinf cosf rot) := by
  simp only [xRot, copyResult_eq, matrixMult_eq_matProd]

theorem yRot_eq (sinf cosf : K → K) (rot : Int) (t : Mat K) :
    yRot sinf cosf rot t = matProd t (rotyMatrix sinf cosf rot) := by
  simp only [yRot, copyResult_eq, matrixMult_eq_matProd]

theorem zRot_eq (sinf cosf : K → K) (rot : Int) (t : Mat K) :
    zRot sinf cosf rot t = matProd t (rotzMatrix sinf cosf rot) := by
  simp only [zRot, copyResult_eq, matrixMult_eq_matProd]

theorem matProd_identity4_left (m : Mat K) : matProd identity4 m = m := by
  funext r k
  fin_cases r <;> simp [matProd, identity4]

/-- C3: `matrixMult` computes the standard 4x4 product: whatever the result
array `a` held before, every entry of the array it leaves is
`b[r][0]*c[0][k] + b[r][1]*c[1][k] + b[r][2]*c[2][k] + b[r][3]*c[3][k]`; the
arrays `b` and `c` are read-only arguments of the embedding. -/
theorem C3_matrixMult_standard_product (a b c : Mat K) :
    ∀ r k : Fin 4, matrixMult a b c r k
      = b r 0 * c 0 k + b r 1 * c 1 k + b r 2 * c 2 k + b r 3 * c 3 k :=
  fun r k => matrixMult_entry a b c r k

end AlgebraFacts

section CompositorFacts

variable {K : Type} [LinearOrderedField K] [FloorRing K]

/-- Folding a loop body commutes with a projection of the loop state. -/
theorem foldl_proj {β γ ι : Type} (proj : β → γ) (f : β → ι → β) (g : γ → ι → γ)
    (h : ∀ b i, proj (f b i) = g (proj b) i) (l : List ι) (b : β) :
    proj (l.foldl f b) = l.foldl g (proj b) := by
  induction l generalizing b with
  | nil => rfl
  | cons i l ih => rw [List.foldl_cons, List.foldl_cons, ih, h]

theorem clearBuffers_frameBuffer (b : Buffers K) (i j : Fin SCREENSIZE) :
    (clearBuffers b).frameBuffer i j = ' ' := by
  have h : (clearBuffers b).frameBuffer
      = (List.finRange SCREENSIZE).foldl (fun a row =>
          (List.finRange SCREENSIZE).foldl (fun a col => setCell a row col ' ') a)
          b.frameBuffer := by
    unfold clearBuffers
    apply foldl_proj Buffers.frameBuffer
    intro b1 row
    apply foldl_proj Buffers.frameBuffer
    intro b2 col
    rfl
  rw [h, fill_grid (fun _ _ => ' ')]
  simp [List.mem_finRange]

theorem clearBuffers_depthBuffer (b : Buffers K) (i j : Fin SCREENSIZE) :
    (clearBuffers b).depthBuffer i j = -1000 := by
  have h : (clearBuffers b).depthBuffer
      = (List.finRange SCREENSIZE).foldl (fun a row =>
          (List.finRange SCREENSIZE).foldl (fun a col => setCell a row col (-1000.0)) a)
          b.depthBuffer := by
    unfold clearBuffers
    apply foldl_proj Buffers.depthBuffer
    intro b1 row
    apply foldl_proj Buffers.depthBuffer
    intro b2 col
    rfl
  rw [h, fill_grid (fun _ _ => (-1000.0 : K))]
  simp [List.mem_finRange]
  norm_num

/-- Inside the grid the unchecked access `a[x][y]` designates the cell `(x, y)`. -/
theorem cellIndex_of_targetCell (p : Vec K) (c : Fin SCREENSIZE × Fin SCREENSIZE)
    (h : targetCell p = some c) :
    cellIndex (truncInt (p 0)) (truncInt (p 1)) = some c := by
  unfold targetCell at h
  simp only at h
  split at h
  · rename_i hr
    simp only [Option.some.injEq] at h
    subst h
    unfold cellIndex
    simp only
    rw [dif_pos (by omega)]
    simp only [Option.some.injEq, Prod.mk.injEq, Fin.mk.injEq]
    constructor <;> omega
  · exact absurd h (by simp)

/-- Truncation of a non-negative value lying in `[n, n + 1)`. -/
theorem truncInt_of_bounds (v : K) (n : Nat) (h1 : (n : K) ≤ v) (h2 : v < (n : K) + 1) :
    truncInt v = (n : Int) := by
  have h0 : (0 : K) ≤ v := le_trans (Nat.cast_nonneg n) h1
  unfold truncInt
  rw [if_pos h0, Int.floor_eq_iff]
  constructor
  · exact_mod_cast h1
  · exact_mod_cast h2

/-- A point whose first two coordinates lie in `[i, i + 1)` and `[j, j + 1)` maps
to the cell `(i, j)`. -/
theorem targetCell_of_bounds (p : Vec K) (i j : Nat) (hi : i < 100) (hj : j < 100)
    (hx1 : (i : K) ≤ p 0) (hx2 : p 0 < (i : K) + 1)
    (hy1 : (j : K) ≤ p 1) (hy2 : p 1 < (j : K) + 1) :
    targetCell p = some (⟨i, hi⟩, ⟨j, hj⟩) := by
  have hx := truncInt_of_bounds (p 0) i hx1 hx2
  have hy := truncInt_of_bounds (p 1) j hy1 hy2
  unfold targetCell
  simp only [hx, hy]
  rw [dif_pos (by omega)]
  simp

/-- The drawing-loop body when the access `[x][y]` designates the cell `c`. -/
theorem drawPoint_of_cellIndex (b : Buffers K) (p : Vec K)
    (c : Fin SCREENSIZE × Fin SCREENSIZE)
    (h : cellIndex (truncInt (p 0)) (truncInt (p 1)) = some c) :
    drawPoint b p =
      if b.depthBuffer c.1 c.2 < p 2 then
        if p 2 > 60.0 then
          some { b with frameBuffer := setCell b.frameBuffer c.1 c.2 'X' }
        else if p 2 < 40.0 then
          some { b with frameBuffer := setCell b.frameBuffer c.1 c.2 '.' }
        else
          some { frameBuffer := setCell b.frameBuffer c.1 c.2 'o',
                 depthBuffer := setCell b.depthBuffer c.1 c.2 (p 2) }
      else
        some b := by
  unfold drawPoint
  simp only [h]

/-- The drawing-loop body at a point that maps to the in-grid cell `c`. -/
theorem drawPoint_of_targetCell (b : Buffers K) (p : Vec K)
    (c : Fin SCREENSIZE × Fin SCREENSIZE) (h : targetCell p = some c) :
    drawPoint b p =
      if b.depthBuffer c.1 c.2 < p 2 then
        if p 2 > 60.0 then
          some { b with frameBuffer := setCell b.frameBuffer c.1 c.2 'X' }
        else if p 2 < 40.0 then
          some { b with frameBuffer := setCell b.frameBuffer c.1 c.2 '.' }
        else
          some { frameBuffer := setCell b.frameBuffer c.1 c.2 'o',
                 depthBuffer := setCell b.depthBuffer c.1 c.2 (p 2) }
      else
        some b := by
  unfold drawPoint
  simp only [cellIndex_of_targetCell p c h]

/-- The effect of the drawing-loop body on an in-grid point, case by case. -/
theorem drawPoint_step_spec (b : Buffers K) (p : Vec K) (i j : Fin SCREENSIZE)
    (hcell : targetCell p = some (i, j)) :
    ∃ b1 : Buffers K, drawPoint b p = some b1 ∧
      (b.depthBuffer i j < p 2 → p 2 > 60 →
        b1.frameBuffer i j = 'X' ∧ b1.depthBuffer i j = b.depthBuffer i j) ∧
      (b.depthBuffer i j < p 2 → p 2 < 40 →
        b1.frameBuffer i j = '.' ∧ b1.depthBuffer i j = b.depthBuffer i j) ∧
      (b.depthBuffer i j < p 2 → 40 ≤ p 2 → p 2 ≤ 60 →
        b1.frameBuffer i j = 'o' ∧ b1.depthBuffer i j = p 2) ∧
      (¬ b.depthBuffer i j < p 2 →
        b1.frameBuffer i j = b.frameBuffer i j ∧ b1.depthBuffer i j = b.depthBuffer i j) ∧
      (∀ r c : Fin SCREENSIZE, ¬ (r = i ∧ c = j) →
        b1.frameBuffer r c = b.frameBuffer r c ∧ b1.depthBuffer r c = b.depthBuffer r c) := by
  rw [drawPoint_of_targetCell b p (i, j) hcell]
  have e60 : (60.0 : K) = 60 := by norm_num
  have e40 : (40.0 : K) = 40 := by norm_num
  simp only [e60, e40]
  by_cases hd : b.depthBuffer i j < p 2
  · by_cases h60 : p 2 > 60
    · refine ⟨_, by rw [if_pos hd, if_pos h60], ?_, ?_, ?_, ?_, ?_⟩
      · intro _ _
        exact ⟨setCell_same _ _ _ _, rfl⟩
      · intro _ h40
        exact absurd h60 (by linarith)
      · intro _ _ h
        exact absurd h60 (not_lt.mpr h)
      · intro h
        exact absurd hd h
      · intro r c hrc
        exact ⟨setCell_other _ _ _ _ _ _ hrc, rfl⟩
    · by_cases h40 : p 2 < 40
      · refine ⟨_, by rw [if_pos hd, if_neg h60, if_pos h40], ?_, ?_, ?_, ?_, ?_⟩
        · intro _ h
          exact absurd h h60
        · intro _ _
          exact ⟨setCell_same _ _ _ _, rfl⟩
        · intro _ h _
          exact absurd h40 (not_lt.mpr h)
        · intro h
          exact absurd hd h
        · intro r c hrc
          exact ⟨setCell_other _ _ _ _ _ _ hrc, rfl⟩
      · refine ⟨_, by rw [if_pos hd, if_neg h60, if_neg h40], ?_, ?_, ?_, ?_, ?_⟩
        · intro _ h
          exact absurd h h60
        · intro _ h
          exact absurd h h40
        · intro _ _ _
          exact ⟨setCell_same _ _ _ _, setCell_same _ _ _ _⟩
        · intro h
          exact absurd hd h
        · intro r c hrc
          exact ⟨setCell_other _ _ _ _ _ _ hrc, setCell_other _ _ _ _ _ _ hrc⟩
  · refine ⟨b, by rw [if_neg hd], ?_, ?_, ?_, ?_, ?_⟩
    · intro h
      exact absurd h hd
    · intro h
      exact absurd h hd
    · intro h
      exact absurd h hd
    · intro _
      exact ⟨rfl, rfl⟩
    · intro r c _
      exact ⟨rfl, rfl⟩

/-- What the loop invariants need from one step at an in-grid point. -/
theorem drawPoint_summary (b : Buffers K) (p : Vec K) (i j : Fin SCREENSIZE)
    (hcell : targetCell p = some (i, j)) :
    ∃ b1 : Buffers K, drawPoint b p = some b1 ∧
      (b.depthBuffer i j < p 2 → b1.frameBuffer i j ≠ ' ') ∧
      (¬ b.depthBuffer i j < p 2 → b1.frameBuffer i j = b.frameBuffer i j) ∧
      (b1.depthBuffer i j = b.depthBuffer i j ∨
        (b.depthBuffer i j < p 2 ∧ 40 ≤ p 2 ∧ p 2 ≤ 60 ∧ b1.depthBuffer i j = p 2)) ∧
      (∀ r c : Fin SCREENSIZE, ¬ (r = i ∧ c = j) →
        b1.frameBuffer r c = b.frameBuffer r c ∧ b1.depthBuffer r c = b.depthBuffer r c) := by
  obtain ⟨b1, hb1, hnear, hfar, hmid, hrej, hother⟩ := drawPoint_step_spec b p i j hcell
  refine ⟨b1, hb1, ?_, fun h => (hrej h).1, ?_, hother⟩
  · intro hd
    rcases lt_or_le 60 (p 2) with h60 | h60
    · rw [(hnear hd h60).1]
      decide
    · rcases lt_or_le (p 2) 40 with h40 | h40
      · rw [(hfar hd h40).1]
        decide
      · rw [(hmid hd h40 h60).1]
        decide
  · by_cases hd : b.depthBuffer i j < p 2
    · rcases lt_or_le 60 (p 2) with h60 | h60
      · exact Or.inl (hnear hd h60).2
      · rcases lt_or_le (p 2) 40 with h40 | h40
        · exact Or.inl (hfar hd h40).2
        · exact Or.inr ⟨hd, h40, h60, (hmid hd h40 h60).2⟩
    · exact Or.inl (hrej hd).2

/-- The drawing loop over a list extended by one point. -/
theorem drawLoop_snoc (b : Buffers K) (l : List (Vec K)) (p : Vec K) :
    drawLoop b (l ++ [p]) =
      match drawLoop b l with
      | none => none
      | some b1 => drawPoint b1 p := by
  induction l generalizing b with
  | nil =>
    simp only [List.nil_append, drawLoop]
    cases drawPoint b p <;> rfl
  | cons q l ih =>
    simp only [List.cons_append, drawLoop]
    cases drawPoint b q with
    | none => rfl
    | some b1 => exact ih b1

/-- Invariants of the drawing loop started from cleared buffers, over points
that all map into the grid: the loop completes; a non-blank cell was hit by a
point; a stored depth other than -1000 is the depth of a mid-tier point at that
cell, and the cell is then non-blank; a point deeper than -1000 leaves its cell
non-blank. -/
theorem drawLoop_cleared (b0 : Buffers K)
    (h0f : ∀ i j, b0.frameBuffer i j = ' ') (h0d : ∀ i j, b0.depthBuffer i j = -1000)
    (pts : List (Vec K)) (hin : ∀ p ∈ pts, targetCell p ≠ none) :
    ∃ b1 : Buffers K, drawLoop b0 pts = some b1 ∧
      (∀ i j, b1.frameBuffer i j ≠ ' ' → ∃ p ∈ pts, targetCell p = some (i, j)) ∧
      (∀ i j, b1.depthBuffer i j = -1000 ∨
        ∃ q ∈ pts, targetCell q = some (i, j) ∧ 40 ≤ q 2 ∧ q 2 ≤ 60 ∧
          b1.depthBuffer i j = q 2 ∧ b1.frameBuffer i j ≠ ' ') ∧
      (∀ p ∈ pts, -1000 < p 2 → ∀ i j, targetCell p = some (i, j) →
        b1.frameBuffer i j ≠ ' ') := by
  induction pts using List.reverseRecOn with
  | nil =>
    refine ⟨b0, rfl, ?_, ?_, ?_⟩
    · intro i j h
      exact absurd (h0f i j) h
    · intro i j
      exact Or.inl (h0d i j)
    · intro p hp
      exact absurd hp (List.not_mem_nil p)
  | append_singleton l p ih =>
    have hinl : ∀ q ∈ l, targetCell q ≠ none := fun q hq =>
      hin q (List.mem_append_left _ hq)
    obtain ⟨b1, hb1, hA, hB, hC⟩ := ih hinl
    have hp : targetCell p ≠ none := hin p (by simp)
    obtain ⟨⟨i0, j0⟩, hcell⟩ := Option.ne_none_iff_exists'.mp hp
    obtain ⟨b2, hb2, hacc, hrej, hdep, hother⟩ := drawPoint_summary b1 p i0 j0 hcell
    refine ⟨b2, ?_, ?_, ?_, ?_⟩
    · rw [drawLoop_snoc, hb1]
      exact hb2
    · intro i j hne
      by_cases hij : i = i0 ∧ j = j0
      · obtain ⟨rfl, rfl⟩ := hij
        exact ⟨p, by simp, hcell⟩
      · rw [(hother i j hij).1] at hne
        obtain ⟨q, hq, hqc⟩ := hA i j hne
        exact ⟨q, List.mem_append_left _ hq, hqc⟩
    · intro i j
      by_cases hij : i = i0 ∧ j = j0
      · obtain ⟨rfl, rfl⟩ := hij
        rcases hdep with hsame | ⟨hd, h40, h60, hz⟩
        · rcases hB i j with hs | ⟨q, hq, hqc, hq40, hq60, hqd, hqf⟩
          · exact Or.inl (by rw [hsame, hs])
          · refine Or.inr ⟨q, List.mem_append_left _ hq, hqc, hq40, hq60, by rw [hsame, hqd], ?_⟩
            by_cases hd : b1.depthBuffer i j < p 2
            · exact hacc hd
            · rw [hrej hd]
              exact hqf
        · exact Or.inr ⟨p, by simp, hcell, h40, h60, hz, hacc hd⟩
      · rw [(hother i j hij).1, (hother i j hij).2]
        rcases hB i j with hs | ⟨q, hq, hqc, hq40, hq60, hqd, hqf⟩
        · exact Or.inl hs
        · exact Or.inr ⟨q, List.mem_append_left _ hq, hqc, hq40, hq60, hqd, hqf⟩
    · intro q hq hz i j hqc
      have hstay : b1.frameBuffer i j ≠ ' ' → b2.frameBuffer i j ≠ ' ' := by
        intro hne
        by_cases hij : i = i0 ∧ j = j0
        · obtain ⟨rfl, rfl⟩ := hij
          by_cases hd : b1.depthBuffer i j < p 2
          · exact hacc hd
          · rw [hrej hd]
            exact hne
        · rw [(hother i j hij).1]
          exact hne
      rcases List.mem_append.mp hq with hql | hqp
      · exact hstay (hC q hql hz i j hqc)
      · have hqp1 : q = p := by simpa using hqp
        subst hqp1
        rw [hcell] at hqc
        simp only [Option.some.injEq, Prod.mk.injEq] at hqc
        obtain ⟨rfl, rfl⟩ := hqc
        by_cases hd : b1.depthBuffer i0 j0 < q 2
        · exact hacc hd
        · rcases hB i0 j0 with hs | ⟨q1, _, _, _, _, _, hqf⟩
          · rw [hs] at hd
            exact absurd hz hd
          · exact hstay hqf

/-- C1: the per-point body of the drawing loop. For a point `p` whose truncated
cell `(i, j)` is inside the grid, with depth `z = p[2]` and stored depth
`d = depthBuffer[i][j]`: the body completes, and if `d < z` and `z > 60` the
glyph becomes 'X' and `d` is kept; if `d < z` and `z < 40` the glyph becomes '.'
and `d` is kept; if `d < z` and `40 ≤ z ≤ 60` the glyph becomes 'o' and the
stored depth becomes `z`; if not `d < z` neither changes. Every other cell of
both buffers is unchanged. -/
theorem C1_drawPoint_step (b : Buffers K) (p : Vec K) (i j : Fin SCREENSIZE)
    (hcell : targetCell p = some (i, j)) :
    ∃ b1 : Buffers K, drawPoint b p = some b1 ∧
      (b.depthBuffer i j < p 2 → p 2 > 60 →
        b1.frameBuffer i j = 'X' ∧ b1.depthBuffer i j = b.depthBuffer i j) ∧
      (b.depthBuffer i j < p 2 → p 2 < 40 →
        b1.frameBuffer i j = '.' ∧ b1.depthBuffer i j = b.depthBuffer i j) ∧
      (b.depthBuffer i j < p 2 → 40 ≤ p 2 → p 2 ≤ 60 →
        b1.frameBuffer i j = 'o' ∧ b1.depthBuffer i j = p 2) ∧
      (¬ b.depthBuffer i j < p 2 →
        b1.frameBuffer i j = b.frameBuffer i j ∧ b1.depthBuffer i j = b.depthBuffer i j) ∧
      (∀ r c : Fin SCREENSIZE, ¬ (r = i ∧ c = j) →
        b1.frameBuffer r c = b.frameBuffer r c ∧ b1.depthBuffer r c = b.depthBuffer r c) :=
  drawPoint_step_spec b p i j hcell

/-- Witness of C1: the point (1.5, 2.25, 45, 1) over buffers holding ' ' and
-1000 everywhere maps to cell (1, 2) and stores 'o' with depth 45 there. -/
theorem C1_drawPoint_step_witness :
    ∃ b1 : Buffers ℚ,
      drawPoint (⟨fun _ _ => ' ', fun _ _ => -1000⟩ : Buffers ℚ) ![3/2, 9/4, 45, 1] = some b1 ∧
      b1.frameBuffer 1 2 = 'o' ∧ b1.depthBuffer 1 2 = 45 := by
  obtain ⟨b1, h, _, _, hmid, _, _⟩ :=
    C1_drawPoint_step (⟨fun _ _ => ' ', fun _ _ => -1000⟩ : Buffers ℚ) ![3/2, 9/4, 45, 1] 1 2
      (targetCell_of_bounds _ 1 2 (by norm_num) (by norm_num) (by norm_num) (by norm_num) (by norm_num) (by norm_num))
  refine ⟨b1, h, ?_⟩
  have := hmid (by norm_num) (by norm_num) (by norm_num)
  simpa using this

/-- Two mid-tier points at one in-grid cell, composited from cleared buffers. -/
theorem composite_two_mid (b : Buffers K) (p1 p2 : Vec K) (i j : Fin SCREENSIZE)
    (h1 : targetCell p1 = some (i, j)) (h2 : targetCell p2 = some (i, j))
    (h1lo : 40 ≤ p1 2) (h1hi : p1 2 ≤ 60) (h2lo : 40 ≤ p2 2) (h2hi : p2 2 ≤ 60) :
    ∃ b2 : Buffers K, composite b [p1, p2] = some b2 ∧
      b2.frameBuffer i j = 'o' ∧ b2.depthBuffer i j = max (p1 2) (p2 2) := by
  obtain ⟨b1, hb1, _, _, hmid1, _, _⟩ := drawPoint_step_spec (clearBuffers b) p1 i j h1
  obtain ⟨b2, hb2, _, _, hmid2, hrej2, _⟩ := drawPoint_step_spec b1 p2 i j h2
  have hs : (clearBuffers b).depthBuffer i j < p1 2 := by
    rw [clearBuffers_depthBuffer]
    linarith
  obtain ⟨hf1, hd1⟩ := hmid1 hs h1lo h1hi
  refine ⟨b2, ?_, ?_⟩
  · simp only [composite, drawLoop, hb1, hb2]
  · by_cases hlt : b1.depthBuffer i j < p2 2
    · obtain ⟨hf2, hd2⟩ := hmid2 hlt h2lo h2hi
      rw [hd1] at hlt
      exact ⟨hf2, by rw [hd2, max_eq_right (le_of_lt hlt)]⟩
    · obtain ⟨hf2, hd2⟩ := hrej2 hlt
      rw [hd1] at hlt
      exact ⟨by rw [hf2, hf1], by rw [hd2, hd1, max_eq_left (not_lt.mp hlt)]⟩

/-- C5: the mid-tier depth test does not depend on the order. Two points of
depths `z1`, `z2` in `[40, 60]` that map to the same in-grid cell, composited
from cleared buffers, leave that cell with the glyph 'o' and the stored depth
`max z1 z2`, whichever of the two comes first. -/
theorem C5_mid_tier_order_independent (b : Buffers K) (p1 p2 : Vec K)
    (i j : Fin SCREENSIZE)
    (h1 : targetCell p1 = some (i, j)) (h2 : targetCell p2 = some (i, j))
    (h1lo : 40 ≤ p1 2) (h1hi : p1 2 ≤ 60) (h2lo : 40 ≤ p2 2) (h2hi : p2 2 ≤ 60) :
    (∃ b2 : Buffers K, composite b [p1, p2] = some b2 ∧
      b2.frameBuffer i j = 'o' ∧ b2.depthBuffer i j = max (p1 2) (p2 2)) ∧
    (∃ b2 : Buffers K, composite b [p2, p1] = some b2 ∧
      b2.frameBuffer i j = 'o' ∧ b2.depthBuffer i j = max (p1 2) (p2 2)) := by
  refine ⟨composite_two_mid b p1 p2 i j h1 h2 h1lo h1hi h2lo h2hi, ?_⟩
  rw [max_comm]
  exact composite_two_mid b p2 p1 i j h2 h1 h2lo h2hi h1lo h1hi

/-- Witness of C5: depths 45 and 50 at cell (1, 2) end with 'o' and stored
depth 50 in both orders. -/
theorem C5_mid_tier_order_independent_witness :
    (∃ b2 : Buffers ℚ,
      composite (⟨fun _ _ => 'X', fun _ _ => 7⟩ : Buffers ℚ)
        [![3/2, 9/4, 45, 1], ![1, 2, 50, 1]] = some b2 ∧
      b2.frameBuffer 1 2 = 'o' ∧ b2.depthBuffer 1 2 = 50) ∧
    (∃ b2 : Buffers ℚ,
      composite (⟨fun _ _ => 'X', fun _ _ => 7⟩ : Buffers ℚ)
        [![1, 2, 50, 1], ![3/2, 9/4, 45, 1]] = some b2 ∧
      b2.frameBuffer 1 2 = 'o' ∧ b2.depthBuffer 1 2 = 50) := by
  have h := C5_mid_tier_order_independent (⟨fun _ _ => 'X', fun _ _ => 7⟩ : Buffers ℚ)
    ![3/2, 9/4, 45, 1] ![1, 2, 50, 1] 1 2
    (targetCell_of_bounds _ 1 2 (by norm_num) (by norm_num) (by norm_num) (by norm_num) (by norm_num) (by norm_num))
    (targetCell_of_bounds _ 1 2 (by norm_num) (by norm_num) (by norm_num) (by norm_num) (by norm_num) (by norm_num))
    (by norm_num) (by norm_num) (by norm_num) (by norm_num)
  have hmax : max (45 : ℚ) 50 = 50 := by norm_num
  simpa [hmax] using h

/-- C6: a near-tier point does not occlude a mid-tier point. A point of depth
`z1 > 60` followed by a point of depth `z2` in `[40, 60]` at the same in-grid
cell, composited from cleared buffers, leaves that cell with the glyph 'o' and
the stored depth `z2`. -/
theorem C6_near_does_not_occlude_mid (b : Buffers K) (p1 p2 : Vec K)
    (i j : Fin SCREENSIZE)
    (h1 : targetCell p1 = some (i, j)) (h2 : targetCell p2 = some (i, j))
    (hnear : 60 < p1 2) (h2lo : 40 ≤ p2 2) (h2hi : p2 2 ≤ 60) :
    ∃ b2 : Buffers K, composite b [p1, p2] = some b2 ∧
      b2.frameBuffer i j = 'o' ∧ b2.depthBuffer i j = p2 2 := by
  obtain ⟨b1, hb1, hnear1, _, _, _, _⟩ := drawPoint_step_spec (clearBuffers b) p1 i j h1
  obtain ⟨b2, hb2, _, _, hmid2, _, _⟩ := drawPoint_step_spec b1 p2 i j h2
  have hs : (clearBuffers b).depthBuffer i j < p1 2 := by
    rw [clearBuffers_depthBuffer]
    linarith
  have hd1 : b1.depthBuffer i j = -1000 := by
    rw [(hnear1 hs hnear).2, clearBuffers_depthBuffer]
  have hlt : b1.depthBuffer i j < p2 2 := by
    rw [hd1]
    linarith
  refine ⟨b2, ?_, hmid2 hlt h2lo h2hi⟩
  simp only [composite, drawLoop, hb1, hb2]

/-- Witness of C6: depth 70 then depth 45 at cell (1, 2) ends with 'o' and
stored depth 45. -/
theorem C6_near_does_not_occlude_mid_witness :
    ∃ b2 : Buffers ℚ,
      composite (⟨fun _ _ => 'X', fun _ _ => 7⟩ : Buffers ℚ)
        [![1, 2, 70, 1], ![3/2, 9/4, 45, 1]] = some b2 ∧
      b2.frameBuffer 1 2 = 'o' ∧ b2.depthBuffer 1 2 = 45 := by
  have h := C6_near_does_not_occlude_mid (⟨fun _ _ => 'X', fun _ _ => 7⟩ : Buffers ℚ)
    ![1, 2, 70, 1] ![3/2, 9/4, 45, 1] 1 2
    (targetCell_of_bounds _ 1 2 (by norm_num) (by norm_num) (by norm_num) (by norm_num) (by norm_num) (by norm_num))
    (targetCell_of_bounds _ 1 2 (by norm_num) (by norm_num) (by norm_num) (by norm_num) (by norm_num) (by norm_num))
    (by norm_num) (by norm_num) (by norm_num)
  simpa using h

/-- The compositor over in-grid points deeper than the sentinel: the non-blank
cells are the cells the points map to. -/
theorem composite_nonblank_iff (b : Buffers K) (pts : List (Vec K))
    (hin : ∀ p ∈ pts, targetCell p ≠ none) (hz : ∀ p ∈ pts, -1000 < p 2) :
    ∃ b1 : Buffers K, composite b pts = some b1 ∧
      ∀ i j, b1.frameBuffer i j ≠ ' ' ↔ ∃ p ∈ pts, targetCell p = some (i, j) := by
  obtain ⟨b1, hb1, hA, _, hC⟩ :=
    drawLoop_cleared (clearBuffers b) (clearBuffers_frameBuffer b)
      (clearBuffers_depthBuffer b) pts hin
  refine ⟨b1, hb1, fun i j => ⟨hA i j, ?_⟩⟩
  rintro ⟨p, hp, hpc⟩
  exact hC p hp (hz p hp) i j hpc

/-- C7: every hit cell is drawn and nothing else is. For points whose truncated
cells are in the grid and pairwise distinct and whose depths exceed -1000,
clearing the buffers and running the drawing loop completes, the non-blank
cells of the frame buffer are exactly the cells the points map to, and their
number is the number of points. -/
theorem C7_hit_cells_exactly (b : Buffers K) (pts : List (Vec K))
    (hin : ∀ p ∈ pts, targetCell p ≠ none)
    (hdistinct : (pts.map targetCell).Nodup)
    (hz : ∀ p ∈ pts, -1000 < p 2) :
    ∃ b1 : Buffers K, composite b pts = some b1 ∧
      (∀ i j, b1.frameBuffer i j ≠ ' ' ↔ ∃ p ∈ pts, targetCell p = some (i, j)) ∧
      (Finset.univ.filter
        (fun c : Fin SCREENSIZE × Fin SCREENSIZE => b1.frameBuffer c.1 c.2 ≠ ' ')).card
        = pts.length := by
  obtain ⟨b1, hb1, hiff⟩ := composite_nonblank_iff b pts hin hz
  refine ⟨b1, hb1, hiff, ?_⟩
  have himage :
      (Finset.univ.filter
        (fun c : Fin SCREENSIZE × Fin SCREENSIZE => b1.frameBuffer c.1 c.2 ≠ ' ')).image some
        = (pts.map targetCell).toFinset := by
    ext o
    cases o with
    | none =>
      simp only [Finset.mem_image, Finset.mem_filter, Finset.mem_univ, true_and,
        List.mem_toFinset, List.mem_map]
      constructor
      · rintro ⟨c, _, hc⟩
        exact absurd hc (by simp)
      · rintro ⟨q, hq, hqc⟩
        exact absurd hqc (hin q hq)
    | some c =>
      obtain ⟨i, j⟩ := c
      simp only [Finset.mem_image, Finset.mem_filter, Finset.mem_univ, true_and,
        List.mem_toFinset, List.mem_map]
      constructor
      · rintro ⟨c1, hc1, hc⟩
        simp only [Option.some.injEq] at hc
        subst hc
        exact (hiff i j).mp hc1
      · intro h
        exact ⟨(i, j), (hiff i j).mpr h, rfl⟩
  rw [← Finset.card_image_of_injective _ (Option.some_injective _), himage,
    List.toFinset_card_of_nodup hdistinct, List.length_map]

/-- Witness of C7: three points at the cells (1, 2), (3, 4), (5, 6), one in each
tier, leave exactly three non-blank cells. -/
theorem C7_hit_cells_exactly_witness :
    ∃ b1 : Buffers ℚ,
      composite (⟨fun _ _ => 'X', fun _ _ => 7⟩ : Buffers ℚ)
        [![3/2, 9/4, 45, 1], ![3, 4, 70, 1], ![5, 6, 10, 1]] = some b1 ∧
      (Finset.univ.filter
        (fun c : Fin SCREENSIZE × Fin SCREENSIZE => b1.frameBuffer c.1 c.2 ≠ ' ')).card
        = 3 := by
  have t1 : targetCell (![3/2, 9/4, 45, 1] : Vec ℚ) = some (1, 2) :=
    targetCell_of_bounds _ 1 2 (by norm_num) (by norm_num) (by norm_num) (by norm_num) (by norm_num) (by norm_num)
  have t2 : targetCell (![3, 4, 70, 1] : Vec ℚ) = some (3, 4) :=
    targetCell_of_bounds _ 3 4 (by norm_num) (by norm_num) (by norm_num) (by norm_num) (by norm_num) (by norm_num)
  have t3 : targetCell (![5, 6, 10, 1] : Vec ℚ) = some (5, 6) :=
    targetCell_of_bounds _ 5 6 (by norm_num) (by norm_num) (by norm_num) (by norm_num) (by norm_num) (by norm_num)
  obtain ⟨b1, hb1, _, hcard⟩ :=
    C7_hit_cells_exactly (⟨fun _ _ => 'X', fun _ _ => 7⟩ : Buffers ℚ)
      [![3/2, 9/4, 45, 1], ![3, 4, 70, 1], ![5, 6, 10, 1]]
      (by
        intro p hp
        simp only [List.mem_cons, List.mem_singleton, List.not_mem_nil, or_false] at hp
        rcases hp with rfl | rfl | rfl
        · rw [t1]; simp
        · rw [t2]; simp
        · rw [t3]; simp)
      (by
        simp only [List.map_cons, List.map_nil, t1, t2, t3]
        decide)
      (by
        intro p hp
        simp only [List.mem_cons, List.mem_singleton, List.not_mem_nil, or_false] at hp
        rcases hp with rfl | rfl | rfl <;> norm_num)
  exact ⟨b1, hb1, by simpa using hcard⟩

/-- A stored depth met by a point after a pass from cleared buffers is -1000 or
the depth of an earlier mid-tier point at the same cell. -/
theorem composite_stored_depth (b : Buffers K) (pre : List (Vec K))
    (hin : ∀ q ∈ pre, targetCell q ≠ none) :
    ∃ b1 : Buffers K, composite b pre = some b1 ∧
      ∀ i j, b1.depthBuffer i j = -1000 ∨
        ∃ q ∈ pre, targetCell q = some (i, j) ∧ 40 ≤ q 2 ∧ q 2 ≤ 60 ∧
          b1.depthBuffer i j = q 2 := by
  obtain ⟨b1, hb1, _, hB, _⟩ :=
    drawLoop_cleared (clearBuffers b) (clearBuffers_frameBuffer b)
      (clearBuffers_depthBuffer b) pre hin
  refine ⟨b1, hb1, fun i j => ?_⟩
  rcases hB i j with hs | ⟨q, hq, hqc, h40, h60, hd, _⟩
  · exact Or.inl hs
  · exact Or.inr ⟨q, hq, hqc, h40, h60, hd⟩

/-- C10 (amended): in a pass started from cleared buffers over in-grid points,
consider a point `p` of depth above -1000 that follows the points `pre`. The
pass over `pre` and the step at `p` complete. If `p` is near-tier (`z > 60`) the
depth test accepts it and its cell gets the glyph 'X'. If the depth test
rejects `p`, then `z ≤ 60` (mid-tier or far-tier) and an earlier mid-tier point
at the same cell stored the depth the test compares with, which is `≥ z`. -/
theorem C10_rejection_needs_stored_mid (b : Buffers K) (pre : List (Vec K)) (p : Vec K)
    (i j : Fin SCREENSIZE)
    (hin : ∀ q ∈ pre, targetCell q ≠ none)
    (hcell : targetCell p = some (i, j)) (hz : -1000 < p 2) :
    ∃ b1 : Buffers K, composite b pre = some b1 ∧
      ∃ b2 : Buffers K, drawPoint b1 p = some b2 ∧
        (60 < p 2 → b1.depthBuffer i j < p 2 ∧ b2.frameBuffer i j = 'X') ∧
        (¬ b1.depthBuffer i j < p 2 →
          p 2 ≤ 60 ∧ ∃ q ∈ pre, targetCell q = some (i, j) ∧ 40 ≤ q 2 ∧ q 2 ≤ 60 ∧
            p 2 ≤ q 2 ∧ b1.depthBuffer i j = q 2) := by
  obtain ⟨b1, hb1, hstored⟩ := composite_stored_depth b pre hin
  obtain ⟨b2, hb2, hnear, _, _, _, _⟩ := drawPoint_step_spec b1 p i j hcell
  refine ⟨b1, hb1, b2, hb2, ?_, ?_⟩
  · intro h60
    have hlt : b1.depthBuffer i j < p 2 := by
      rcases hstored i j with hs | ⟨q, _, _, _, hq60, hd⟩
      · rw [hs]
        exact hz
      · rw [hd]
        linarith
    exact ⟨hlt, (hnear hlt h60).1⟩
  · intro hrej
    rcases hstored i j with hs | ⟨q, hq, hqc, hq40, hq60, hd⟩
    · rw [hs] at hrej
      exact absurd hz hrej
    · rw [hd] at hrej
      have hle : p 2 ≤ q 2 := not_lt.mp hrej
      exact ⟨le_trans hle hq60, q, hq, hqc, hq40, hq60, hle, hd⟩

/-- Witness of C10 (amended): after a mid-tier point of depth 45 at cell (1, 2),
a near-tier point of depth 70 at that cell is accepted and draws 'X'. -/
theorem C10_rejection_needs_stored_mid_witness :
    ∃ b1 : Buffers ℚ,
      composite (⟨fun _ _ => 'X', fun _ _ => 7⟩ : Buffers ℚ) [![3/2, 9/4, 45, 1]] = some b1 ∧
      ∃ b2 : Buffers ℚ, drawPoint b1 ![1, 2, 70, 1] = some b2 ∧
        b1.depthBuffer 1 2 < 70 ∧ b2.frameBuffer 1 2 = 'X' := by
  obtain ⟨b1, hb1, b2, hb2, hnear, _⟩ :=
    C10_rejection_needs_stored_mid (⟨fun _ _ => 'X', fun _ _ => 7⟩ : Buffers ℚ)
      [![3/2, 9/4, 45, 1]] ![1, 2, 70, 1] 1 2
      (by
        intro q hq
        simp only [List.mem_singleton] at hq
        subst hq
        rw [targetCell_of_bounds _ 1 2 (by norm_num) (by norm_num) (by norm_num)
          (by norm_num) (by norm_num) (by norm_num)]
        simp)
      (targetCell_of_bounds _ 1 2 (by norm_num) (by norm_num) (by norm_num)
        (by norm_num) (by norm_num) (by norm_num))
      (by norm_num)
  have h := hnear (by norm_num)
  exact ⟨b1, hb1, b2, hb2, by simpa using h.1, h.2⟩

/-- C10 as stated fails for far-tier points: after a mid-tier point of depth 45
at cell (1, 2), a far-tier point of depth 30 (above -1000, below 40) at the same
cell is rejected by the depth test and the glyph stays 'o'. -/
theorem C10_far_tier_point_rejected :
    ∃ b1 b2 : Buffers ℚ,
      composite (⟨fun _ _ => 'X', fun _ _ => 7⟩ : Buffers ℚ) [![1, 2, 45, 1]] = some b1 ∧
      drawPoint b1 ![1, 2, 30, 1] = some b2 ∧
      ¬ (b1.depthBuffer 1 2 < (![1, 2, 30, 1] : Vec ℚ) 2) ∧
      b2.frameBuffer 1 2 = 'o' ∧ b2.frameBuffer 1 2 ≠ '.' := by
  have t1 : targetCell (![1, 2, 45, 1] : Vec ℚ) = some (1, 2) :=
    targetCell_of_bounds _ 1 2 (by norm_num) (by norm_num) (by norm_num) (by norm_num)
      (by norm_num) (by norm_num)
  have t2 : targetCell (![1, 2, 30, 1] : Vec ℚ) = some (1, 2) :=
    targetCell_of_bounds _ 1 2 (by norm_num) (by norm_num) (by norm_num) (by norm_num)
      (by norm_num) (by norm_num)
  obtain ⟨b1, hb1, _, _, hmid1, _, _⟩ :=
    drawPoint_step_spec (clearBuffers (⟨fun _ _ => 'X', fun _ _ => 7⟩ : Buffers ℚ)) _ 1 2 t1
  obtain ⟨b2, hb2, _, _, _, hrej2, _⟩ := drawPoint_step_spec b1 _ 1 2 t2
  have hs : (clearBuffers (⟨fun _ _ => 'X', fun _ _ => 7⟩ : Buffers ℚ)).depthBuffer 1 2
      < (![1, 2, 45, 1] : Vec ℚ) 2 := by
    rw [clearBuffers_depthBuffer]
    norm_num
  obtain ⟨hf1, hd1⟩ := hmid1 hs (by norm_num) (by norm_num)
  have hnot : ¬ (b1.depthBuffer 1 2 < (![1, 2, 30, 1] : Vec ℚ) 2) := by
    rw [hd1]
    norm_num
  have hf2 : b2.frameBuffer 1 2 = 'o' := by
    rw [(hrej2 hnot).1, hf1]
  refine ⟨b1, b2, ?_, hb2, hnot, hf2, ?_⟩
  · simp only [composite, drawLoop, hb1]
  · rw [hf2]
    decide

/-- C4: the drawing loop indexes the buffers without a range check. The point
(1, -1, 50, 1) has the truncated column -1, outside `0..99`; it is neither
skipped nor clamped to (1, 0): the access `[1][-1]` is the offset 99, so the
loop writes the glyph and the depth of cell (0, 99) and leaves (1, 0) blank.
The point (-1, 0, 50, 1) has the truncated row -1; the access `[-1][0]` is the
offset -100, outside both arrays, and the loop has no defined result. -/
theorem C4_out_of_range_access_unchecked :
    targetCell (![1, -1, 50, 1] : Vec ℚ) = none ∧
    (∃ b1 : Buffers ℚ,
      composite (⟨fun _ _ => 'X', fun _ _ => 7⟩ : Buffers ℚ) [![1, -1, 50, 1]] = some b1 ∧
      b1.frameBuffer 0 99 = 'o' ∧ b1.depthBuffer 0 99 = 50 ∧ b1.frameBuffer 1 0 = ' ') ∧
    targetCell (![-1, 0, 50, 1] : Vec ℚ) = none ∧
    composite (⟨fun _ _ => 'X', fun _ _ => 7⟩ : Buffers ℚ) [![-1, 0, 50, 1]] = none := by
  have tr1 : truncInt (1 : ℚ) = 1 := by simp [truncInt]
  have tr0 : truncInt (0 : ℚ) = 0 := by simp [truncInt]
  have trm : truncInt (-1 : ℚ) = -1 := by
    unfold truncInt
    rw [if_neg (by norm_num), Int.ceil_eq_iff]
    norm_num
  have hc1 : cellIndex 1 (-1) = some (0, 99) := by decide
  have hc2 : cellIndex (-1) 0 = none := by decide
  refine ⟨?_, ?_, ?_, ?_⟩
  · simp [targetCell, tr1, trm]
  · have hidx : cellIndex (truncInt ((![1, -1, 50, 1] : Vec ℚ) 0))
        (truncInt ((![1, -1, 50, 1] : Vec ℚ) 1)) = some (0, 99) := by
      simpa [tr1, trm] using hc1
    have hstep := drawPoint_of_cellIndex
      (clearBuffers (⟨fun _ _ => 'X', fun _ _ => 7⟩ : Buffers ℚ)) _ _ hidx
    have hlt : (clearBuffers (⟨fun _ _ => 'X', fun _ _ => 7⟩ : Buffers ℚ)).depthBuffer 0 99
        < (![1, -1, 50, 1] : Vec ℚ) 2 := by
      rw [clearBuffers_depthBuffer]
      norm_num
    rw [if_pos hlt, if_neg (by norm_num), if_neg (by norm_num)] at hstep
    have hcomp : composite (⟨fun _ _ => 'X', fun _ _ => 7⟩ : Buffers ℚ) [![1, -1, 50, 1]]
        = drawPoint (clearBuffers (⟨fun _ _ => 'X', fun _ _ => 7⟩ : Buffers ℚ))
            ![1, -1, 50, 1] := by
      simp only [composite, drawLoop]
      cases drawPoint (clearBuffers (⟨fun _ _ => 'X', fun _ _ => 7⟩ : Buffers ℚ))
        ![1, -1, 50, 1] <;> rfl
    rw [hstep] at hcomp
    refine ⟨_, hcomp, ?_, ?_, ?_⟩
    · simp [setCell]
    · simp [setCell]
    · simp [setCell, clearBuffers_frameBuffer]
  · simp [targetCell, tr0, trm]
  · have hidx : cellIndex (truncInt ((![-1, 0, 50, 1] : Vec ℚ) 0))
        (truncInt ((![-1, 0, 50, 1] : Vec ℚ) 1)) = none := by
      simpa [tr0, trm] using hc2
    simp only [composite, drawLoop, drawPoint, hidx]

end CompositorFacts

section FrameFacts

variable {K : Type} [LinearOrderedField K] [FloorRing K]

end FrameFacts

section RotationFacts

/-- The angle `360 * 0.017453` is within 0.000106 of a full turn, so its real
sine and its real cosine are within 0.001 of 0 and of 1. -/
theorem angle360_bounds :
    |Real.sin (((360 : Int) : ℝ) * oneDegree)| < 1 / 1000 ∧
    |Real.cos (((360 : Int) : ℝ) * oneDegree) - 1| < 1 / 1000 := by
  have hpi1 : (3141592 / 1000000 : ℝ) < Real.pi := by
    have h := Real.pi_gt_d6
    norm_num at h ⊢
    linarith
  have hpi2 : Real.pi < (3141593 / 1000000 : ℝ) := by
    have h := Real.pi_lt_d6
    norm_num at h ⊢
    linarith
  obtain ⟨d, hd⟩ : ∃ d : ℝ, d = 2 * Real.pi - 628308 / 100000 := ⟨_, rfl⟩
  have hd1 : 0 < d := by rw [hd]; linarith
  have hd2 : d < 1 / 1000 := by rw [hd]; linarith
  have hangle : ((360 : Int) : ℝ) * oneDegree = -d + 2 * Real.pi := by
    rw [hd]
    unfold oneDegree
    push_cast
    ring
  have hsin : Real.sin (((360 : Int) : ℝ) * oneDegree) = - Real.sin d := by
    rw [hangle, Real.sin_add_two_pi, Real.sin_neg]
  have hcos : Real.cos (((360 : Int) : ℝ) * oneDegree) = Real.cos d := by
    rw [hangle, Real.cos_add_two_pi, Real.cos_neg]
  have hs1 : Real.sin d < d := Real.sin_lt hd1
  have hs0 : 0 < Real.sin d := Real.sin_pos_of_pos_of_lt_pi hd1 (by linarith)
  have hc1 : 1 - d ^ 2 / 2 ≤ Real.cos d := Real.one_sub_sq_div_two_le_cos
  have hc2 : Real.cos d ≤ 1 := Real.cos_le_one d
  constructor
  · rw [hsin, abs_neg, abs_of_pos hs0]
    linarith
  · rw [hcos, abs_sub_comm, abs_of_nonneg (by linarith)]
    have : d ^ 2 / 2 < 1 / 1000 := by nlinarith
    linarith

/-- C8: a rotation by 360 degrees is approximately the identity for the three
axes, over real arithmetic with the real sine and cosine and the code's factor
0.017453: every entry of the matrices `rotx`, `roty`, `rotz` built for
`rot = 360` differs from the identity by less than 0.001, and `xRot(360)`,
`yRot(360)`, `zRot(360)` applied to the identity transform that
`initTransform()` leaves change no entry by 0.001 or more. -/
theorem C8_rotation_360_near_identity (t : Mat ℝ) (r c : Fin 4) :
    |rotxMatrix Real.sin Real.cos 360 r c - identity4 r c| < 0.001 ∧
    |rotyMatrix Real.sin Real.cos 360 r c - identity4 r c| < 0.001 ∧
    |rotzMatrix Real.sin Real.cos 360 r c - identity4 r c| < 0.001 ∧
    |xRot Real.sin Real.cos 360 (initTransform t) r c - initTransform t r c| < 0.001 ∧
    |yRot Real.sin Real.cos 360 (initTransform t) r c - initTransform t r c| < 0.001 ∧
    |zRot Real.sin Real.cos 360 (initTransform t) r c - initTransform t r c| < 0.001 := by
  obtain ⟨hs, hc⟩ := angle360_bounds
  have e : (0.001 : ℝ) = 1 / 1000 := by norm_num
  rw [xRot_eq, yRot_eq, zRot_eq, initTransform_eq, matProd_identity4_left,
    matProd_identity4_left, matProd_identity4_left, e]
  have hx : |rotxMatrix Real.sin Real.cos 360 r c - identity4 r c| < 1 / 1000 := by
    fin_cases r <;> fin_cases c <;>
      simp [rotxMatrix, setCell, rotInit, identity4] <;>
      first | simpa using hs | simpa using hc
  have hy : |rotyMatrix Real.sin Real.cos 360 r c - identity4 r c| < 1 / 1000 := by
    fin_cases r <;> fin_cases c <;>
      simp [rotyMatrix, setCell, rotInit, identity4] <;>
      first | simpa using hs | simpa using hc
  have hz : |rotzMatrix Real.sin Real.cos 360 r c - identity4 r c| < 1 / 1000 := by
    fin_cases r <;> fin_cases c <;>
      simp [rotzMatrix, setCell, rotInit, identity4] <;>
      first | simpa using hs | simpa using hc
  exact ⟨hx, hy, hz, hx, hy, hz⟩

end RotationFacts

section PointFacts

/-- C9: the fixed cube stores `w = 1.0` in each of its eight points, but random
generation does not: with `pointCount = 1` and `random()` returning 0, the
component `pointArray[0][3]` is `2.5 * ((0 - 0) - 0.5) = -1.25`. -/
theorem C9_random_point_w_not_one :
    (cubePointArray : List (Vec ℚ)).length = 8 ∧
    (∀ p ∈ (cubePointArray : List (Vec ℚ)), p 3 = 1) ∧
    (∃ p ∈ (randomPointArray 1 (fun _ => 0) : List (Vec ℚ)), p 3 = -5 / 4 ∧ p 3 ≠ 1) := by
  refine ⟨rfl, ?_, ?_⟩
  · intro p hp
    simp only [cubePointArray, List.mem_cons, List.mem_singleton, List.not_mem_nil,
      or_false] at hp
    rcases hp with rfl | rfl | rfl | rfl | rfl | rfl | rfl | rfl <;> norm_num
  · have hcoord : (randomCoord 0 : ℚ) = -5 / 4 := by
      simp only [randomCoord, truncInt]
      norm_num
    refine ⟨![randomCoord 0, randomCoord 0, randomCoord 0, randomCoord 0], ?_, ?_, ?_⟩
    · simp [randomPointArray]
    · simpa using hcoord
    · have h3 : (![randomCoord 0, randomCoord 0, randomCoord 0, randomCoord 0] : Vec ℚ) 3
          = -5 / 4 := by simpa using hcoord
      rw [h3]
      norm_num

end PointFacts

end Graphics
